import Mathlib

/-!
Shallow embedding of the relation-flattening engine
(`anyconfig/backend/relations.py`) and the SQLite relational codec
(`anyconfig/backend/sqlite.py`) of python-anyconfig, together with proofs
about the specification claims for these components.

Conventions of the embedding:
* Python values (scalars, sequences, string-keyed mappings, and the `Ref`
  namedtuple) are the inductive type `Val`; a Python dict is an association
  list `NDict` in insertion order (Python dicts preserve insertion order and
  appending a new key appends an entry).
* The in-place mutation the engine performs on its input document is made
  explicit: the traversal returns the updated document next to the emitted
  relation tuples.
* Generator-style lazy emission becomes an eagerly materialised list in the
  same order the generator would yield.
* The recursion of `_ndict_to_rels_itr` is not structurally decreasing in
  Lean terms (it recurses into freshly built two-field dicts), so the
  traversal takes an explicit fuel argument and returns `none` when the fuel
  runs out; every theorem quantifies over or instantiates sufficient fuel.
* `object_to_id` (hence `_gen_id`) calls `m9dicts.compat.md5` and
  `m9dicts.compat.to_str`, which are not part of this repository's sources;
  per the spec an Identifier is an opaque deterministic content digest with
  collisions tolerated.  The whole development is therefore parameterised
  by a digest function `gid` applied to the sorted item list, and concrete
  counterexamples instantiate it with the executable modelled digest
  `gidMdl` below.
-/

/-- A Python value as seen by the flattening engine: scalars (string,
integer, float, boolean, null), sequences, string-keyed mappings, and the
`Ref` namedtuple `Ref(relvar, id)` produced by the engine.  Floats never
participate in any computation other than type dispatch, so they are
carried as their literal text. -/
inductive Val where
  | vNull : Val
  | vBool : Bool → Val
  | vInt : Int → Val
  | vFloat : String → Val
  | vStr : String → Val
  | vRef : String → Val → Val
  | vList : List Val → Val
  | vDict : List (String × Val) → Val

/-- A Python dict in insertion order. -/
abbrev NDict := List (String × Val)

mutual

/-- Decidable equality for `Val` (structural, as Python `==` on these
shapes; `Ref` equality is structural equality of `(relvar, id)`). -/
def decEqVal (a b : Val) : Decidable (a = b) :=
  match a, b with
  | .vNull, .vNull => isTrue rfl
  | .vBool x, .vBool y =>
    match decEq x y with
    | isTrue h => isTrue (by rw [h])
    | isFalse h => isFalse (by intro hh; injection hh; contradiction)
  | .vInt x, .vInt y =>
    match decEq x y with
    | isTrue h => isTrue (by rw [h])
    | isFalse h => isFalse (by intro hh; injection hh; contradiction)
  | .vFloat x, .vFloat y =>
    match decEq x y with
    | isTrue h => isTrue (by rw [h])
    | isFalse h => isFalse (by intro hh; injection hh; contradiction)
  | .vStr x, .vStr y =>
    match decEq x y with
    | isTrue h => isTrue (by rw [h])
    | isFalse h => isFalse (by intro hh; injection hh; contradiction)
  | .vRef r x, .vRef s y =>
    match decEq r s, decEqVal x y with
    | isTrue h1, isTrue h2 => isTrue (by rw [h1, h2])
    | isFalse h1, _ => isFalse (by intro hh; injection hh; contradiction)
    | _, isFalse h2 => isFalse (by intro hh; injection hh; contradiction)
  | .vList xs, .vList ys =>
    match decEqValList xs ys with
    | isTrue h => isTrue (by rw [h])
    | isFalse h => isFalse (by intro hh; injection hh; contradiction)
  | .vDict xs, .vDict ys =>
    match decEqFieldList xs ys with
    | isTrue h => isTrue (by rw [h])
    | isFalse h => isFalse (by intro hh; injection hh; contradiction)
  | .vNull, .vBool _ | .vNull, .vInt _ | .vNull, .vFloat _ | .vNull, .vStr _
  | .vNull, .vRef _ _ | .vNull, .vList _ | .vNull, .vDict _
  | .vBool _, .vNull | .vBool _, .vInt _ | .vBool _, .vFloat _
  | .vBool _, .vStr _ | .vBool _, .vRef _ _ | .vBool _, .vList _
  | .vBool _, .vDict _
  | .vInt _, .vNull | .vInt _, .vBool _ | .vInt _, .vFloat _
  | .vInt _, .vStr _ | .vInt _, .vRef _ _ | .vInt _, .vList _
  | .vInt _, .vDict _
  | .vFloat _, .vNull | .vFloat _, .vBool _ | .vFloat _, .vInt _
  | .vFloat _, .vStr _ | .vFloat _, .vRef _ _ | .vFloat _, .vList _
  | .vFloat _, .vDict _
  | .vStr _, .vNull | .vStr _, .vBool _ | .vStr _, .vInt _
  | .vStr _, .vFloat _ | .vStr _, .vRef _ _ | .vStr _, .vList _
  | .vStr _, .vDict _
  | .vRef _ _, .vNull | .vRef _ _, .vBool _ | .vRef _ _, .vInt _
  | .vRef _ _, .vFloat _ | .vRef _ _, .vStr _ | .vRef _ _, .vList _
  | .vRef _ _, .vDict _
  | .vList _, .vNull | .vList _, .vBool _ | .vList _, .vInt _
  | .vList _, .vFloat _ | .vList _, .vStr _ | .vList _, .vRef _ _
  | .vList _, .vDict _
  | .vDict _, .vNull | .vDict _, .vBool _ | .vDict _, .vInt _
  | .vDict _, .vFloat _ | .vDict _, .vStr _ | .vDict _, .vRef _ _
  | .vDict _, .vList _ => isFalse (by intro hh; cases hh)

def decEqValList (xs ys : List Val) : Decidable (xs = ys) :=
  match xs, ys with
  | [], [] => isTrue rfl
  | _ :: _, [] => isFalse (by intro hh; cases hh)
  | [], _ :: _ => isFalse (by intro hh; cases hh)
  | x :: xs, y :: ys =>
    match decEqVal x y, decEqValList xs ys with
    | isTrue h1, isTrue h2 => isTrue (by rw [h1, h2])
    | isFalse h1, _ => isFalse (by intro hh; injection hh; contradiction)
    | _, isFalse h2 => isFalse (by intro hh; injection hh; contradiction)

def decEqFieldList (xs ys : List (String × Val)) : Decidable (xs = ys) :=
  match xs, ys with
  | [], [] => isTrue rfl
  | _ :: _, [] => isFalse (by intro hh; cases hh)
  | [], _ :: _ => isFalse (by intro hh; cases hh)
  | (k1, v1) :: xs, (k2, v2) :: ys =>
    match decEq k1 k2, decEqVal v1 v2, decEqFieldList xs ys with
    | isTrue h1, isTrue h2, isTrue h3 => isTrue (by rw [h1, h2, h3])
    | isFalse h1, _, _ =>
      isFalse (by intro hh; injection hh with hp _; injection hp; contradiction)
    | _, isFalse h2, _ =>
      isFalse (by intro hh; injection hh with hp _; injection hp; contradiction)
    | _, _, isFalse h3 => isFalse (by intro hh; injection hh; contradiction)

end

instance : DecidableEq Val := decEqVal

/-- `ID_KEY` of `anyconfig.backend.relations`. -/
def ID_KEY : String := "id"

/-- Python truth test `isinstance(obj, Ref)` used via `_is_ref` and in
`_is_list_item` / `_ndict_to_rels_itr`. -/
def isRefVal : Val → Bool
  | .vRef _ _ => true
  | _ => false

/-- The source's `_is_list_item(val)`: `val and is_list_like(val) and not
isinstance(val, Ref)`.  `m9dicts.utils.is_list_like` is not under `src/`;
modelled from the spec (section 4.1 step 3): a sequence value.  Truthiness of
`val` makes the empty sequence not a list item. -/
def isListItem : Val → Bool
  | .vList xs => !xs.isEmpty
  | _ => false

/-- `m9dicts.utils.is_dict_like` is not under `src/`; modelled from the spec
(section 4.1 step 6): a mapping value. -/
def isDictLike : Val → Bool
  | .vDict _ => true
  | _ => false

/-- Scalar documents: string, integer, float, boolean, null (spec section 3). -/
def isScalar : Val → Bool
  | .vNull => true
  | .vBool _ => true
  | .vInt _ => true
  | .vFloat _ => true
  | .vStr _ => true
  | _ => false

/-- Python `dic[k]` / `k in dic` on an insertion-ordered dict: the first
entry with the key. -/
def findV (k : String) : NDict → Option Val
  | [] => none
  | (k2, v) :: rest => if k2 = k then some v else findV k rest

/-- Python `dic[k] = v`: replace the value in place if the key exists,
append a new entry otherwise. -/
def dictSet : NDict → String → Val → NDict
  | [], k, v => [(k, v)]
  | (k2, v2) :: rest, k, v =>
    if k2 = k then (k, v) :: rest else (k2, v2) :: dictSet rest k v

/-- Lexicographic string comparison by code point, as Python compares
strings (Lean's builtin `String` order is byte-iterator based and does not
evaluate inside the kernel, so the embedding spells it out on the
character lists). -/
def strLtB : List Char → List Char → Bool
  | [], [] => false
  | [], _ :: _ => true
  | _ :: _, [] => false
  | a :: as, b :: bs =>
    decide (a.toNat < b.toNat) || (decide (a = b) && strLtB as bs)

/-- Python `<` on strings. -/
def strLt (a b : String) : Bool := strLtB a.data b.data

def insertStr (x : String) : List String → List String
  | [] => [x]
  | y :: ys => if strLt x y then x :: y :: ys else y :: insertStr x ys

/-- Python `sorted` on a list of strings. -/
def sortStrings (l : List String) : List String := l.foldr insertStr []

def insertByKey (x : String × Val) : NDict → NDict
  | [] => [x]
  | y :: ys => if strLt x.1 y.1 then x :: y :: ys else y :: insertByKey x ys

/-- Python `sorted(dic.items())` for a dict with unique string keys: tuple
comparison is decided by the keys alone, so this sorts by key. -/
def sortByKey (l : NDict) : NDict := l.foldr insertByKey []

/-- `_gen_relvar(*args)`: join with underscores. -/
def genRelvar (args : List String) : String := String.intercalate "_" args

/-- `_gen_relvar_from_dic(dic)`: a single-field mapping gets the prefix
`relvar_` to avoid colliding with its own field name, otherwise the sorted
keys joined by underscores. -/
def genRelvarFromDic (dic : NDict) : String :=
  match sortStrings (dic.map Prod.fst) with
  | [k] => "relvar_" ++ k
  | keys => genRelvar keys

mutual

/-- Content encoding used by the modelled digest `gidMdl` below. -/
def encodeV : Val → String
  | .vNull => "N"
  | .vBool b => if b then "T" else "F"
  | .vInt n => "I" ++ toString n
  | .vFloat s => "D" ++ s
  | .vStr s => "S" ++ s
  | .vRef r i => "R(" ++ r ++ "," ++ encodeV i ++ ")"
  | .vList xs => "[" ++ encodeL xs ++ "]"
  | .vDict xs => "<" ++ encodeF xs ++ ">"

def encodeL : List Val → String
  | [] => ""
  | x :: xs => encodeV x ++ ";" ++ encodeL xs

def encodeF : List (String × Val) → String
  | [] => ""
  | (k, v) :: xs => "(" ++ k ++ ":" ++ encodeV v ++ ")" ++ encodeF xs

end

def strHash (s : String) : Nat :=
  s.data.foldl (fun a c => (a * 131 + c.toNat) % 1000000007) 7

/-- Modelled from the spec: `object_to_id` (and through it `_gen_id`) digests
`str(sorted(dic.items()))` with `m9dicts.compat.md5` and truncates; those
compat helpers are not under `src/`, and the spec (section 3, Identifier)
requires only a deterministic content digest over the sorted field pairs,
with collisions possible.  `gidMdl` is the executable modelled digest used to
instantiate the digest parameter `gid` in concrete runs; every general
theorem quantifies over an arbitrary digest instead. -/
def gidMdl (items : NDict) : Int := Int.ofNat (strHash (encodeF items))

/-- `_rank_1_dict_to_rels(dic, relvar, idk)`: derive the relation name if
none is given, add a generated `id` to the (local) dict if missing, and
return the name with the key-sorted tuple of items.  The `id` write-back
mutates only the dict object passed in; `_ndict_to_rels_itr` passes it the
fresh copy `rdic`, so that write never reaches the caller's document. -/
def rank1DictToRels (gid : NDict → Int) (dic : NDict) (relvar : Option String) :
    String × NDict :=
  let rv := match relvar with
    | some r => r
    | none => genRelvar (sortStrings (dic.map Prod.fst))
  let dic2 := match findV ID_KEY dic with
    | some _ => dic
    | none => dic ++ [(ID_KEY, .vInt (gid (sortByKey dic)))]
  (rv, sortByKey dic2)

/-- `_tuple_id(tpl)`: the `(relvar, id)` pair of an emitted tuple, `None`
(here `none`) when the row has no `id` field. -/
def tupleId (relvar : String) (row : NDict) : Option (String × Val) :=
  (findV ID_KEY row).map (fun v => (relvar, v))

/-- The per-traversal `seen` set: `_tuple_id` results (possibly `None`). -/
abbrev Seen := List (Option (String × Val))

/-- `_is_new_and_update_seen(tpl, seen)` together with the `seen.add`. -/
def isNewAndUpdateSeen (tid : Option (String × Val)) (seen : Seen) :
    Bool × Seen :=
  if tid ∈ seen then (false, seen) else (true, tid :: seen)

/-- One emitted tuple `(relvar, row)` of the lazy iterator. -/
abbrev Emit := String × NDict

/-- Result of one `_ndict_to_rels_itr` traversal: the emitted tuples in
yield order, the input dict after the engine's in-place mutations, and the
final `seen` set. -/
structure FRes where
  out : List Emit
  dic : NDict
  seen : Seen
deriving DecidableEq

/-- The synthetic mapping `{key: item, relvar: Ref(relvar, pid)}` built for
each list element (line 172 of relations.py); a Python dict literal keeps
the later binding when both keys coincide. -/
def mkLdic (key : String) (item : Val) (relvar : String) (pref : Val) : NDict :=
  if key = relvar then [(relvar, pref)] else [(key, item), (relvar, pref)]

/-- Result of the nested-mapping pass (`for key, val in rdic.items()` of
`_ndict_to_rels_itr`): emitted tuples, the entries with nested dicts
replaced by `Ref`s (the state of `rdic` after line 187), the entries as the
caller's document sees them after the in-place `id` write-backs, and the
threaded `seen` set. -/
structure BRes where
  out : List Emit
  refEntries : NDict
  docEntries : NDict
  seen : Seen
deriving DecidableEq

/-- The child relation name disambiguation of lines 170 and 179:
`_gen_relvar(relvar, key) if key == relvar else key`. -/
def crelvarOf (relvar key : String) : String :=
  if key = relvar then relvar ++ "_" ++ key else key

/-- Lines 180-185 for a nested mapping `d`: reuse its `id` when present and
no value is a `Ref`, otherwise generate one (from the mapping as it stands,
old `id` included) and write it into the mapping; returns the reference id
and the mapping after the write. -/
def refidOf (gid : NDict → Int) (d : NDict) : Val × NDict :=
  match findV ID_KEY d, d.all (fun kv => !isRefVal kv.2) with
  | some i, true => (i, d)
  | _, _ =>
    let g := Val.vInt (gid (sortByKey d))
    (g, dictSet d ID_KEY g)

/-- The inner loop `for item in val` of `_ndict_to_rels_itr` (lines
171-175): each element is wrapped in the synthetic mapping and flattened
with a fresh `seen` set; the traversal `frec` stands for
`_ndict_to_rels_itr` at the next fuel level.  Returns the emitted tuples
and the elements as left in the caller's list after mutation. -/
def goElems (frec : NDict → Seen → Option String → Option FRes)
    (relvar key crelvar : String) (pid : Val) :
    List Val → Option (List Emit × List Val)
  | [] => some ([], [])
  | item :: items =>
    match frec (mkLdic key item relvar (.vRef relvar pid)) [] (some crelvar) with
    | none => none
    | some sub =>
      match goElems frec relvar key crelvar pid items with
      | none => none
      | some (o, its) =>
        let item2 := if key = relvar then item else (findV key sub.dic).getD item
        some (sub.out ++ o, item2 :: its)

/-- The list-valued pass of `_ndict_to_rels_itr` (lines 169-175), walking
the whole dict in insertion order and handling exactly the `_is_list_item`
entries (which is the order the Python `litems` loop visits them);
non-list entries pass through untouched.  Returns the emissions and the
dict with its list entries' elements updated in place. -/
def phaseA (frec : NDict → Seen → Option String → Option FRes)
    (relvar : String) (pid : Val) : NDict → Option (List Emit × NDict)
  | [] => some ([], [])
  | (key, .vList (x :: xs)) :: rest =>
    match goElems frec relvar key (crelvarOf relvar key) pid (x :: xs) with
    | none => none
    | some (o, its) =>
      match phaseA frec relvar pid rest with
      | none => none
      | some (o2, rest2) => some (o ++ o2, (key, .vList its) :: rest2)
  | (key, val) :: rest =>
    match phaseA frec relvar pid rest with
    | none => none
    | some (o2, rest2) => some (o2, (key, val) :: rest2)

/-- The nested-mapping pass of `_ndict_to_rels_itr` (lines 177-189),
walking the dict in insertion order and handling exactly the dict-valued
entries (which is the order the Python loop over `rdic.items()` visits
them, list entries not being dict-like): reuse the nested mapping's `id`
when it has one and none of its values is a `Ref`, otherwise generate one
and write it into the nested mapping (the caller's object); replace the
entry by `Ref(crelvar, refid)`; recurse with the same `seen` set. -/
def phaseB (gid : NDict → Int)
    (frec : NDict → Seen → Option String → Option FRes)
    (relvar : String) : NDict → Seen → Option BRes
  | [], seen => some ⟨[], [], [], seen⟩
  | (key, val) :: rest, seen =>
    match val with
    | .vDict d =>
      match frec (refidOf gid d).2 seen (some (crelvarOf relvar key)) with
      | none => none
      | some sub =>
        match phaseB gid frec relvar rest sub.seen with
        | none => none
        | some b =>
          some ⟨sub.out ++ b.out,
                (key, .vRef (crelvarOf relvar key) (refidOf gid d).1) ::
                  b.refEntries,
                (key, .vDict sub.dic) :: b.docEntries, b.seen⟩
    | v =>
      match phaseB gid frec relvar rest seen with
      | none => none
      | some b =>
        some ⟨b.out, (key, v) :: b.refEntries, (key, v) :: b.docEntries, b.seen⟩

/-- The relation label of one traversal: the supplied `relvar` or the one
derived from the dict (line 162-163). -/
def rvLabel (rv : Option String) (dic : NDict) : String :=
  match rv with
  | some r => r
  | none => genRelvarFromDic dic

/-- The remaining (non-list) fields `rdic` (line 166). -/
def rdicOf (dic : NDict) : NDict := dic.filter (fun kv => !isListItem kv.2)

/-- The parent id `pid` (line 167), taken from the remaining fields before
any `Ref` replacement. -/
def pidOf (gid : NDict → Int) (dic : NDict) : Val :=
  match findV ID_KEY (rdicOf dic) with
  | some v => v
  | none => .vInt (gid (sortByKey (rdicOf dic)))

/-- The final step of one traversal (lines 191-193): build the parent tuple
with `_rank_1_dict_to_rels` from the `Ref`-substituted remaining fields and
emit it only when its `(relvar, id)` is new in `seen`. -/
def finishStep (gid : NDict → Int) (relvar : String) (outAB : List Emit)
    (refEntries docEntries : NDict) (seen : Seen) : FRes :=
  let rdic2 := refEntries.filter (fun kv => !isListItem kv.2)
  let tpl := rank1DictToRels gid rdic2 (some relvar)
  let tid := tupleId tpl.1 tpl.2
  let ns := isNewAndUpdateSeen tid seen
  if ns.1 then ⟨outAB ++ [tpl], docEntries, ns.2⟩
  else ⟨outAB, docEntries, ns.2⟩

def ndictToRelsItr (gid : NDict → Int) :
    Nat → NDict → Seen → Option String → Option FRes
  | 0, _, _, _ => none
  | fuel + 1, dic, seen, rv =>
    if dic.isEmpty then some ⟨[], dic, seen⟩
    else
      match phaseA (ndictToRelsItr gid fuel) (rvLabel rv dic) (pidOf gid dic)
          dic with
      | none => none
      | some pa =>
        match phaseB gid (ndictToRelsItr gid fuel) (rvLabel rv dic) pa.2
            seen with
        | none => none
        | some b =>
          some (finishStep gid (rvLabel rv dic) (pa.1 ++ b.out) b.refEntries
            b.docEntries b.seen)

/-- `dict_to_rels_itr(dic, name)`: run the traversal with a fresh `seen`
set; our embedding also surfaces the mutated document. -/
def dictToRelsItr (gid : NDict → Int) (fuel : Nat) (dic : NDict)
    (name : Option String) : Option FRes :=
  ndictToRelsItr gid fuel dic [] name

def ctorRank : Val → Nat
  | .vNull => 0
  | .vBool _ => 1
  | .vInt _ => 2
  | .vFloat _ => 3
  | .vStr _ => 4
  | .vRef _ _ => 5
  | .vList _ => 6
  | .vDict _ => 7

mutual

/-- Total comparison modelling Python's ordering as used by
`sorted(set(...))` on rows in `dict_to_rels`: tuples and lists compare
lexicographically, same-type scalars by their order, `Ref` namedtuples as
`(relvar, id)` tuples.  Python 3 raises `TypeError` on cross-type scalar
comparisons; rows of one relation compare key-first so that never decides a
sort in practice, and the embedding totalises those cases by constructor
rank. -/
def valLt : Val → Val → Bool
  | .vBool a, .vBool b => !a && b
  | .vInt a, .vInt b => decide (a < b)
  | .vFloat a, .vFloat b => strLt a b
  | .vStr a, .vStr b => strLt a b
  | .vRef r a, .vRef s b => strLt r s || (decide (r = s) && valLt a b)
  | .vList xs, .vList ys => valListLt xs ys
  | .vDict xs, .vDict ys => fieldListLt xs ys
  | a, b => decide (ctorRank a < ctorRank b)
  termination_by structural a _ => a

def valListLt : List Val → List Val → Bool
  | [], [] => false
  | [], _ :: _ => true
  | _ :: _, [] => false
  | x :: xs, y :: ys => valLt x y || (decide (x = y) && valListLt xs ys)
  termination_by structural a _ => a

def fieldListLt : List (String × Val) → List (String × Val) → Bool
  | [], [] => false
  | [], _ :: _ => true
  | _ :: _, [] => false
  | (k1, v1) :: xs, (k2, v2) :: ys =>
    strLt k1 k2 || (decide (k1 = k2) &&
      (valLt v1 v2 || (decide (v1 = v2) && fieldListLt xs ys)))
  termination_by structural a _ => a

end

def insertRow (x : NDict) : List NDict → List NDict
  | [] => [x]
  | y :: ys => if fieldListLt x y then x :: y :: ys else y :: insertRow x ys

/-- Python `sorted` on a list of rows. -/
def sortRows (l : List NDict) : List NDict := l.foldr insertRow []

/-- Python `set(...)` on rows followed by iteration: the distinct rows
(the subsequent sort makes the retained order irrelevant). -/
def dedupRows : List NDict → List NDict
  | [] => []
  | x :: xs => if x ∈ xs then dedupRows xs else x :: dedupRows xs

/-- Adjacent deduplication of a sorted name list (the group keys of
`itertools.groupby` on a list sorted by that key). -/
def dedupSorted : List String → List String
  | [] => []
  | [x] => [x]
  | x :: y :: rest =>
    if x = y then dedupSorted (y :: rest) else x :: dedupSorted (y :: rest)

/-- The grouping of `dict_to_rels`: sort the emitted tuples by relation
name, group by name, and turn each group into the sorted set of its rows. -/
def groupRels (ems : List Emit) : List (String × List NDict) :=
  let names := dedupSorted (sortStrings (ems.map Prod.fst))
  names.map (fun n =>
    (n, sortRows (dedupRows ((ems.filter (fun e => decide (e.1 = n))).map Prod.snd))))

/-- `dict_to_rels(dic, name)`: grouped, deduplicated, sorted relations. -/
def dictToRels (gid : NDict → Int) (fuel : Nat) (dic : NDict)
    (name : Option String) : Option (List (String × List NDict)) :=
  (dictToRelsItr gid fuel dic name).map (fun r => groupRels r.out)

/-- `ILEVELS` of `anyconfig.backend.sqlite`: `(None, "DEFERRED",
"IMMEDIATE", "EXCLUSIVE")`. -/
def ILEVELS : List (Option String) :=
  [none, some "DEFERRED", some "IMMEDIATE", some "EXCLUSIVE"]

/-- The keyword options `load`/`dump` recognise; a `none` field means the
key is absent from `options`. -/
structure ConnOptions where
  isolationLevel : Option (Option String) := none
  extensions : Option (List String) := none
deriving DecidableEq

/-- One table of an SQLite store, as far as the codec observes it. -/
structure TableData where
  name : String
  cols : List String
  rows : List (List Val)
deriving DecidableEq

/-- The observable state of a `sqlite3.Connection`. -/
structure ConnState where
  isolationLevel : Option String := none
  loadExtensionEnabled : Bool := false
  loadedExtensions : List String := []
  tables : List TableData := []
deriving DecidableEq

/-- `_set_options(conn, **options)`: apply `isolation_level` only when its
value is one of `ILEVELS` (anything else is ignored without error), then
enable and load any requested extensions. -/
def setOptions (conn : ConnState) (options : ConnOptions) : ConnState :=
  let c1 := match options.isolationLevel with
    | some lvl => if lvl ∈ ILEVELS then { conn with isolationLevel := lvl } else conn
    | none => conn
  match options.extensions with
  | some exts =>
    { c1 with loadExtensionEnabled := true,
              loadedExtensions := c1.loadedExtensions ++ exts }
  | none => c1

/-- `anyconfig.compat.STR_TYPES` is not under `src/`; modelled from the
spec (section 4.2 step 3): the textual scalars. -/
def isStrType : Val → Bool
  | .vStr _ => true
  | _ => false

/-- Python `type(val) == int`; `type(True)` is `bool`, so booleans do not
pass this test. -/
def isIntType : Val → Bool
  | .vInt _ => true
  | _ => false

/-- Python `type(val) == float`. -/
def isFloatType : Val → Bool
  | .vFloat _ => true
  | _ => false

/-- `_sqlite_type(val)`: TEXT for textual scalars, INTEGER for integers
and `Ref`s, REAL for floats, BLOB for everything else. -/
def sqliteType (val : Val) : String :=
  if isStrType val then "TEXT"
  else if isIntType val || isRefVal val then "INTEGER"
  else if isFloatType val then "REAL"
  else "BLOB"

/-- `_sql_vars(items)`: the values of a row, `Ref`s replaced by their id. -/
def sqlVars (items : NDict) : List Val :=
  items.map (fun kv =>
    match kv.2 with
    | .vRef _ i => i
    | v => v)

/-- Python `str(v)` as the `%s` interpolation of `_dml_st_itr` renders the
value shapes that can reach it (scalars and `Ref` ids after `_sql_vars`);
container values are rendered with a marker, no claim exercises them. -/
def pyToS : Val → String
  | .vNull => "None"
  | .vBool b => if b then "True" else "False"
  | .vInt n => toString n
  | .vFloat s => s
  | .vStr s => s
  | .vRef r i => "Ref(relvar='" ++ r ++ "', id=" ++ pyToS i ++ ")"
  | .vList _ => "<list>"
  | .vDict _ => "<dict>"

/-- One statement execution of the dump or load path.  CREATE TABLE
statements are kept structured: table name, the `'col' TYPE` pairs in
column order, the `FOREIGN KEY(col) REFERENCES other(id)` pairs, and
whether `_create_table_and_insert_data` was called with `foreign_keys`;
DML statements keep the exact string `_dml_st_itr` builds together with
the parameters bound to it. -/
inductive ExecStmt where
  | create (relvar : String) (cols : List (String × String))
      (fks : List (String × String)) (withFk : Bool)
  | dml (stmt : String) (params : List Val)
  | commit
deriving DecidableEq

/-- `", ".join('?' for _ in range(n))`. -/
def qmarks (n : Nat) : String := String.intercalate ", " (List.replicate n "?")

/-- `_dml_st_itr(rel, data, keys)`: one `INSERT OR REPLACE` per row; a row
with fewer items than declared keys takes the fallback branch, whose
statement interpolates the row's own `_sql_vars` values (not its keys)
into the parenthesised list after the table name, and binds the raw row
values. -/
def dmlStItr (rel : String) (data : List NDict) (keys : List String) :
    List (String × List Val) :=
  let stmt := "INSERT OR REPLACE INTO '" ++ rel ++ "' VALUES (" ++
    qmarks keys.length ++ ")"
  data.map (fun items =>
    if items.length < keys.length then
      let rvars := sqlVars items
      ("INSERT OR REPLACE INTO '" ++ rel ++ "' (" ++
        String.intercalate ", " (rvars.map (fun v => "'" ++ pyToS v ++ "'")) ++
        ") VALUES (" ++ qmarks rvars.length ++ ")",
       items.map Prod.snd)
    else (stmt, sqlVars items))

/-- `_create_table_and_insert_data(conn, relvar, data, foreign_keys)`: the
CREATE TABLE built from the first row's keys and value types (with one
FOREIGN KEY clause per `Ref`-valued column of the first row when
`foreign_keys` is set), a commit, the DML statements, and a commit. -/
def createTableAndInsertData (relvar : String) (data : List NDict)
    (foreignKeys : Bool) : List ExecStmt :=
  let row0 := data.headD []
  let keys := row0.map Prod.fst
  let cols := row0.map (fun kv => (kv.1, sqliteType kv.2))
  let fks :=
    if foreignKeys then
      (row0.filter (fun kv => isRefVal kv.2)).map (fun kv =>
        (kv.1, match kv.2 with
          | .vRef r _ => r
          | _ => ""))
    else []
  ExecStmt.create relvar cols fks foreignKeys :: ExecStmt.commit ::
    ((dmlStItr relvar data keys).map (fun p => ExecStmt.dml p.1 p.2) ++
      [ExecStmt.commit])

/-- The dependence test of `dump`: some row of the relation has a
`Ref`-valued field. -/
def relHasRef (data : List NDict) : Bool :=
  data.any (fun r => r.any (fun kv => isRefVal kv.2))

/-- `dump(cnf, conn, **options)`: set the connection options, flatten the
configuration, then create the tables without foreign-key constraints
first (in relation order) and the `Ref`-carrying ones after them.  The
executions are returned as a trace next to the connection state. -/
def dump (gid : NDict → Int) (fuel : Nat) (cnf : NDict) (conn : ConnState)
    (options : ConnOptions) : Option (ConnState × List ExecStmt) :=
  match dictToRels gid fuel cnf none with
  | none => none
  | some rels =>
    let conn2 := setOptions conn options
    let indep := rels.filter (fun r => !relHasRef r.2)
    let dep := rels.filter (fun r => relHasRef r.2)
    some (conn2,
      indep.flatMap (fun r => createTableAndInsertData r.1 r.2 false) ++
        dep.flatMap (fun r => createTableAndInsertData r.1 r.2 true))

/-- `itertools.izip_longest(keys, vals)` as `load` uses it: pad the
shorter side (`None` keys / `None` values). -/
def zipLongest : List String → List Val → List (Option String × Val)
  | [], [] => []
  | k :: ks, [] => (some k, .vNull) :: zipLongest ks []
  | [], v :: vs => (none, v) :: zipLongest [] vs
  | k :: ks, v :: vs => (some k, v) :: zipLongest ks vs

/-- The statements `load(conn)` executes: the `sqlite_master` query, then
one `PRAGMA table_info` and one `SELECT *` per table. -/
def loadStmts (conn : ConnState) : List String :=
  "SELECT name,sql FROM sqlite_master WHERE type='table'" ::
    conn.tables.flatMap (fun t =>
      ["PRAGMA table_info('" ++ t.name ++ "')", "SELECT * FROM " ++ t.name])

/-- The table-name to row-list mapping `load(conn)` builds. -/
def loadTables (conn : ConnState) :
    List (String × List (List (Option String × Val))) :=
  conn.tables.map (fun t => (t.name, t.rows.map (fun r => zipLongest t.cols r)))

/-- `load(conn, to_container, **options)`: apply the connection options,
then introspect every table; the executed statements are surfaced as a
trace. -/
def load (conn : ConnState) (options : ConnOptions) :
    ConnState × List String × List (String × List (List (Option String × Val))) :=
  let c := setOptions conn options
  (c, loadStmts c, loadTables c)

/-- A value handed to the stream API: a `sqlite3.Connection` or anything
else. -/
inductive ConnInput where
  | conn (c : ConnState)
  | notConn
deriving DecidableEq

/-- The message of the `RuntimeError` `_assert_conn` raises. -/
def CONN_ERR : String := "Given one is not a sqlite3.Connection object!"

/-- `_assert_conn(conn)`: raise `RuntimeError` unless the argument is a
`sqlite3.Connection`; raise nothing otherwise. -/
def assertConn : ConnInput → Except String Unit
  | .conn _ => .ok ()
  | .notConn => .error CONN_ERR

/-- `Parser.load_from_stream(conn, to_container, **kwargs)`: assert the
connection first, then `load`.  On the error path the result carries no
execution trace: nothing was attempted against the resource. -/
def loadFromStream (input : ConnInput) (options : ConnOptions) :
    Except String
      (ConnState × List String × List (String × List (List (Option String × Val)))) := do
  let _ ← assertConn input
  match input with
  | .conn c => pure (load c options)
  | .notConn => throw CONN_ERR

/-- `Parser.dump_to_stream(cnf, conn, **kwargs)`: assert the connection
first, then `dump`. -/
def dumpToStream (gid : NDict → Int) (fuel : Nat) (cnf : NDict)
    (input : ConnInput) (options : ConnOptions) :
    Except String (Option (ConnState × List ExecStmt)) := do
  let _ ← assertConn input
  match input with
  | .conn c => pure (dump gid fuel cnf c options)
  | .notConn => throw CONN_ERR

/-! Claim-level helper definitions. -/

/-- The `(relvar, id)` pairs of the `Ref` values appearing in a row. -/
def rowRefs (row : NDict) : List (String × Val) :=
  row.filterMap (fun kv =>
    match kv.2 with
    | .vRef r i => some (r, i)
    | _ => none)

/-- Decidable referential closure over a grouped relation list: every `Ref`
of every row names exactly one relation, and that relation contains exactly
one row whose `id` field equals the `Ref`'s id. -/
def refClosureHolds (rels : List (String × List NDict)) : Bool :=
  rels.all (fun rel => rel.2.all (fun row => (rowRefs row).all (fun ri =>
    decide ((rels.filter (fun q => decide (q.1 = ri.1))).length = 1) &&
      rels.all (fun q =>
        !(decide (q.1 = ri.1)) ||
          decide ((q.2.filter (fun r2 =>
            decide (findV ID_KEY r2 = some ri.2))).length = 1)))))

/-- Two distinct rows of one relation sharing the same `id` value. -/
def hasDupIdRows (rels : List (String × List NDict)) : Bool :=
  rels.any (fun rel => rel.2.any (fun r1 => rel.2.any (fun r2 =>
    !(decide (r1 = r2)) && decide (findV ID_KEY r1 = findV ID_KEY r2))))

/-- Whether a statement is the CREATE TABLE of the named relation. -/
def createNamed (n : String) : ExecStmt → Bool
  | .create rv _ _ _ => decide (rv = n)
  | _ => false

/-- The FOREIGN KEY clauses of a CREATE TABLE statement. -/
def createFks : ExecStmt → List (String × String)
  | .create _ _ fks _ => fks
  | _ => []

/-- Whether a CREATE TABLE statement came from the `foreign_keys` call
form of `_create_table_and_insert_data`. -/
def createWithFkFlag : ExecStmt → Bool
  | .create _ _ _ wfk => wfk
  | _ => false

/-! The claims. -/

def c1doc : NDict := [("b", .vList [.vInt 1]), ("c", .vDict [("x", .vInt 5)])]

/-- C1 (code bug): referential closure fails on the code.  For the document
`{b: [1], c: {x: 5}}` the flattening engine emits relations `b`, `b_c` and
`c`, but the `Ref` stored in relation `b`'s row points at `(b_c, pid)`
where `pid` was generated from the remaining fields before the nested
mapping `c` was replaced by a `Ref` (relations.py line 167), while the
emitted `b_c` row's `id` is generated after that replacement (line 191), so
no emitted `b_c` row carries the referenced id and `refClosureHolds` is
false, although the spec lists referential closure as a property of every
flattening call. -/
theorem c1_referential_closure_fails_on_code :
    (dictToRels gidMdl 9 c1doc none).map refClosureHolds = some false ∧
    (dictToRels gidMdl 9 c1doc none).map (fun rels => rels.map Prod.fst) =
      some ["b", "b_c", "c"] := by decide

def c2doc : NDict := [("b", .vList [.vInt 1]), ("c", .vDict [("x", .vInt 5)])]

/-- The state of `c2doc` after one flattening call: the engine has written
the generated id into the nested mapping `c` (but not into the root). -/
def c2docAfter : NDict :=
  [("b", .vList [.vInt 1]), ("c", .vDict [("x", .vInt 5), ("id", .vInt 42976850)])]

/-- C2 (code bug): determinism of grouping fails on the code.  One
`dict_to_rels` call on `{b: [1], c: {x: 5}}` mutates the document to
`c2docAfter` (the nested mapping is tagged with its generated id, the root
is not), and the second call in succession — which sees the mutated
document — produces a different grouped result, because the root's `pid`
is regenerated from remaining fields that now contain the nested id. -/
theorem c2_determinism_fails_on_code :
    (dictToRelsItr gidMdl 9 c2doc none).map FRes.dic = some c2docAfter ∧
    dictToRels gidMdl 9 c2docAfter none ≠ dictToRels gidMdl 9 c2doc none ∧
    (dictToRels gidMdl 9 c2docAfter none).isSome = true := by decide

def c3doc : NDict :=
  [("A", .vList [.vDict [("id", .vInt 0), ("a", .vInt 1)],
                 .vDict [("id", .vInt 0), ("a", .vInt 2)]])]

/-- C3 (counterexample): flattening `{A: [{id: 0, a: 1}, {id: 0, a: 2}]}`
emits relation `A_A` with two distinct rows that share the id `0` but have
different field content: list elements are flattened with fresh `seen`
sets (relations.py line 173), so caller-supplied duplicate ids across
elements are not suppressed. -/
theorem c3_counterexample :
    (dictToRels gidMdl 9 c3doc none).map hasDupIdRows = some true ∧
    (dictToRels gidMdl 9 c3doc none).map (fun rels => rels.lookup "A_A") =
      some (some [[("a", .vInt 1), ("id", .vInt 0)],
                  [("a", .vInt 2), ("id", .vInt 0)]]) := by decide

def c4doc : NDict := [("b", .vList [.vInt 1]), ("id", .vInt 7)]

/-- C4 (counterexample): flattening `{b: [1], id: 7}` emits exactly one row
in relation `b` for the scalar list element `1`, but its `id` field is
`969792180 = gid(sorted({b: 1, b_id: Ref(b_id, 7)}.items()))`, not the
value the claim predicts, `gid` of the pair `(b, 1)` alone
(`563978113`): the digest input also contains the parent `Ref`. -/
theorem c4_counterexample :
    (dictToRelsItr gidMdl 9 c4doc none).map (fun r =>
        r.out.filterMap (fun e => if e.1 = "b" then findV ID_KEY e.2 else none)) =
      some [.vInt 969792180] ∧
    gidMdl [("b", .vInt 1)] = 563978113 ∧ (969792180 : Int) ≠ 563978113 := by decide

def c5doc : NDict := [("a", .vInt 1)]

/-- C5 (counterexample): the top-level mapping `{a: 1}` lacks an `id`
field, yet after a full flattening call the caller's document is unchanged
and still carries no `id`: `_rank_1_dict_to_rels` writes the generated id
only into the internal copy `rdic` (relations.py line 166/191), never into
the caller's root mapping. -/
theorem c5_counterexample :
    (dictToRelsItr gidMdl 9 c5doc none).map FRes.dic = some [("a", .vInt 1)] ∧
    (dictToRelsItr gidMdl 9 c5doc none).map (fun r => findV ID_KEY r.dic) =
      some none := by decide

def c6doc : NDict :=
  [("x", .vDict [("b", .vList [.vInt 1]), ("c", .vDict [("y", .vInt 2)])])]

/-- C6 (counterexample): dumping `{x: {b: [1], c: {y: 2}}}` emits the
CREATE TABLE of relation `b` — which declares `FOREIGN KEY(x) REFERENCES
x(id)` — at position 4 of the statement trace, while the CREATE TABLE of
the relation `x` it foreign-keys only appears at position 12: `x` is
itself dependent (its rows hold a `Ref` to `c`), and dependent relations
are created in name order regardless of references among them. -/
theorem c6_counterexample :
    (dump gidMdl 9 c6doc {} {}).map (fun p =>
        (p.2.findIdx? (createNamed "b"), p.2.findIdx? (createNamed "x"))) =
      some (some 4, some 12) ∧
    (dump gidMdl 9 c6doc {} {}).map (fun p =>
        (p.2.find? (createNamed "b")).map createFks) = some (some [("x", "x")]) ∧
    (dump gidMdl 9 c6doc {} {}).map (fun p =>
        (p.2.find? (createNamed "x")).map createWithFkFlag) = some (some true) ∧
    (4 : Nat) < 12 :=
  ⟨by decide, by decide, by decide, by decide⟩

def c7doc : NDict :=
  [("A", .vDict [("x", .vInt 1), ("id", .vInt 5)]),
   ("r", .vDict [("A", .vDict [("y", .vInt 2), ("z", .vInt 3), ("id", .vInt 4)])])]

/-- C7 (code bug): relation `A` of `c7doc` holds a three-field row
`(id: 4, y: 2, z: 3)` (which sorts first and fixes the declared columns)
and a two-field ragged row `(id: 5, x: 1)`.  The fallback of `_dml_st_itr`
fires for the ragged row, but the statement it builds interpolates the
row's values (`'5', '1'`) into the parenthesised list after the table
name — where the claim (and the spec) require the present column names
(`'id', 'x'`) — and binds the raw row values. -/
theorem c7_ragged_insert_names_values_not_columns :
    (dump gidMdl 9 c7doc {} {}).map (fun p =>
      (p.2.contains
        (.dml "INSERT OR REPLACE INTO 'A' ('5', '1') VALUES (?, ?)"
          [.vInt 5, .vInt 1]),
       p.2.any (fun s =>
         match s with
         | .dml st _ => decide (st = "INSERT OR REPLACE INTO 'A' ('id', 'x') VALUES (?, ?)")
         | _ => false))) = some (true, false) := by decide

/-- C8 (confirmed): `_sqlite_type` chooses the SQL column type from the
value alone: textual scalars map to TEXT, integral scalars and `Ref`s to
INTEGER, floats to REAL, and everything else — booleans (whose Python type
is `bool`, not `int`), nulls, and containers — to BLOB. -/
theorem c8_sql_type_selection :
    (∀ s, sqliteType (.vStr s) = "TEXT") ∧
    (∀ n, sqliteType (.vInt n) = "INTEGER") ∧
    (∀ r i, sqliteType (.vRef r i) = "INTEGER") ∧
    (∀ s, sqliteType (.vFloat s) = "REAL") ∧
    (∀ b, sqliteType (.vBool b) = "BLOB") ∧
    sqliteType .vNull = "BLOB" ∧
    (∀ xs, sqliteType (.vList xs) = "BLOB") ∧
    (∀ xs, sqliteType (.vDict xs) = "BLOB") :=
  ⟨fun _ => rfl, fun _ => rfl, fun _ _ => rfl, fun _ => rfl, fun _ => rfl,
    rfl, fun _ => rfl, fun _ => rfl⟩

/-- C9 (confirmed): `_assert_conn` raises the descriptive `RuntimeError`
exactly on non-connection inputs and raises nothing on connections, and
the stream-based `load_from_stream` / `dump_to_stream` fail with that
error before any statement is attempted (their error results carry no
execution trace), while on a valid connection they proceed to `load` /
`dump`. -/
theorem c9_connection_type_error :
    (∀ c, assertConn (.conn c) = .ok ()) ∧
    assertConn .notConn = .error CONN_ERR ∧
    (∀ opts, loadFromStream .notConn opts = .error CONN_ERR) ∧
    (∀ gid fuel cnf opts,
      dumpToStream gid fuel cnf .notConn opts = .error CONN_ERR) ∧
    (∀ c opts, loadFromStream (.conn c) opts = .ok (load c opts)) ∧
    (∀ gid fuel cnf c opts,
      dumpToStream gid fuel cnf (.conn c) opts = .ok (dump gid fuel cnf c opts)) :=
  ⟨fun _ => rfl, rfl, fun _ => rfl, fun _ _ _ _ => rfl, fun _ _ => rfl,
    fun _ _ _ _ _ => rfl⟩

/-- What `_set_options` leaves as the connection's isolation level: the
requested value when it is one of `ILEVELS`, the previous value otherwise
(the `extensions` handling never touches it). -/
theorem setOptions_isolationLevel (conn : ConnState) (opts : ConnOptions) :
    (setOptions conn opts).isolationLevel =
      match opts.isolationLevel with
      | some lvl => if lvl ∈ ILEVELS then lvl else conn.isolationLevel
      | none => conn.isolationLevel := by
  unfold setOptions
  cases opts.isolationLevel <;> cases opts.extensions <;>
    simp <;> split <;> simp

/-- C10 (confirmed): an `isolation_level` option whose value is not one of
`None`, `DEFERRED`, `IMMEDIATE`, `EXCLUSIVE` is silently ignored by
`_set_options` — the connection keeps its isolation level through both the
dump and the load path and no error is raised (the option handling is
total) — while a value in `ILEVELS` is applied to the connection. -/
theorem c10_isolation_level_option
    (conn : ConnState) (lvl : Option String) (exts : Option (List String))
    (h : lvl ∉ ILEVELS) :
    (setOptions conn ⟨some lvl, exts⟩).isolationLevel = conn.isolationLevel ∧
    (∀ gid fuel cnf p, dump gid fuel cnf conn ⟨some lvl, exts⟩ = some p →
        p.1.isolationLevel = conn.isolationLevel) ∧
    (load conn ⟨some lvl, exts⟩).1.isolationLevel = conn.isolationLevel ∧
    (∀ lvl2, lvl2 ∈ ILEVELS →
        (setOptions conn ⟨some lvl2, exts⟩).isolationLevel = lvl2) := by
  have hset : ∀ l : Option String,
      (setOptions conn ⟨some l, exts⟩).isolationLevel =
        if l ∈ ILEVELS then l else conn.isolationLevel := by
    intro l
    rw [setOptions_isolationLevel]
  refine ⟨?_, ?_, ?_, ?_⟩
  · rw [hset, if_neg h]
  · intro gid fuel cnf p hp
    unfold dump at hp
    cases hrels : dictToRels gid fuel cnf none with
    | none => rw [hrels] at hp; exact absurd hp (by simp)
    | some rels =>
      rw [hrels] at hp
      simp only [Option.some_inj] at hp
      have : p.1 = setOptions conn ⟨some lvl, exts⟩ := by
        rw [← hp]
      rw [this, hset, if_neg h]
  · unfold load
    rw [hset, if_neg h]
  · intro lvl2 h2
    rw [hset, if_pos h2]

/-- Witness for C10: the unrecognised level `"BOGUS"` on a fresh
connection is ignored. -/
theorem c10_isolation_level_option_witness :
    (some "BOGUS" : Option String) ∉ ILEVELS ∧
    (setOptions {} ⟨some (some "BOGUS"), none⟩).isolationLevel =
      ({} : ConnState).isolationLevel :=
  ⟨by decide, (c10_isolation_level_option {} (some "BOGUS") none (by decide)).1⟩

/-! Association-list lemmas used by the amended claims. -/

theorem insertByKey_perm (x : String × Val) (l : NDict) :
    (insertByKey x l).Perm (x :: l) := by
  induction l with
  | nil => simp [insertByKey]
  | cons y ys ih =>
    unfold insertByKey
    split
    · exact List.Perm.refl _
    · exact (ih.cons y).trans (List.Perm.swap x y ys)

theorem sortByKey_perm (l : NDict) : (sortByKey l).Perm l := by
  induction l with
  | nil => simp [sortByKey]
  | cons x xs ih =>
    have : sortByKey (x :: xs) = insertByKey x (sortByKey xs) := rfl
    rw [this]
    exact (insertByKey_perm x (sortByKey xs)).trans (ih.cons x)

theorem findV_eq_some_iff_of_nodup {l : NDict}
    (hnd : (l.map Prod.fst).Nodup) {k : String} {v : Val} :
    findV k l = some v ↔ (k, v) ∈ l := by
  induction l with
  | nil => simp [findV]
  | cons x xs ih =>
    obtain ⟨k2, v2⟩ := x
    simp only [List.map_cons, List.nodup_cons] at hnd
    by_cases hk : k2 = k
    · subst hk
      simp only [findV, if_pos rfl]
      constructor
      · intro h
        injection h with h
        subst h
        exact List.mem_cons_self _ _
      · intro h
        rcases List.mem_cons.mp h with h | h
        · injection h with _ h2
          simp [h2]
        · exact absurd (List.mem_map.mpr ⟨(k2, v), h, rfl⟩) hnd.1
    · simp only [findV, if_neg hk]
      rw [ih hnd.2]
      constructor
      · exact fun h => List.mem_cons_of_mem _ h
      · intro h
        rcases List.mem_cons.mp h with h | h
        · injection h with h1 _
          exact absurd h1.symm hk
        · exact h

theorem findV_eq_none_iff {l : NDict} {k : String} :
    findV k l = none ↔ k ∉ l.map Prod.fst := by
  induction l with
  | nil => simp [findV]
  | cons x xs ih =>
    obtain ⟨k2, v2⟩ := x
    by_cases hk : k2 = k
    · subst hk
      simp [findV]
    · simp [findV, hk, ih, Ne.symm hk]

theorem findV_perm {l l' : NDict} (hp : l.Perm l')
    (hnd : (l.map Prod.fst).Nodup) (k : String) :
    findV k l = findV k l' := by
  have hnd' : (l'.map Prod.fst).Nodup := ((hp.map Prod.fst).nodup_iff).mp hnd
  cases h : findV k l with
  | some v =>
    exact ((findV_eq_some_iff_of_nodup hnd').mpr
      (hp.mem_iff.mp ((findV_eq_some_iff_of_nodup hnd).mp h))).symm
  | none =>
    have : k ∉ l'.map Prod.fst := fun hm =>
      (findV_eq_none_iff.mp h) ((hp.map Prod.fst).mem_iff.mpr hm)
    exact (findV_eq_none_iff.mpr this).symm

theorem findV_sortByKey (l : NDict) (hnd : (l.map Prod.fst).Nodup)
    (k : String) : findV k (sortByKey l) = findV k l :=
  (findV_perm (sortByKey_perm l).symm hnd k).symm

theorem findV_append_left {l1 : NDict} {k : String} {v : Val}
    (h : findV k l1 = some v) (l2 : NDict) :
    findV k (l1 ++ l2) = some v := by
  induction l1 with
  | nil => simp [findV] at h
  | cons x xs ih =>
    obtain ⟨k2, v2⟩ := x
    by_cases hk : k2 = k
    · subst hk
      simp only [findV, if_pos rfl] at h ⊢
      exact h
    · simp only [findV, if_neg hk] at h ⊢
      exact ih h

theorem findV_append_right {l1 : NDict} {k : String}
    (h : findV k l1 = none) (l2 : NDict) :
    findV k (l1 ++ l2) = findV k l2 := by
  induction l1 with
  | nil => simp [findV]
  | cons x xs ih =>
    obtain ⟨k2, v2⟩ := x
    by_cases hk : k2 = k
    · subst hk
      simp [findV] at h
    · simp only [findV, if_neg hk] at h ⊢
      exact ih h

theorem isListItem_eq_false_of_isScalar {v : Val} (h : isScalar v = true) :
    isListItem v = false := by
  cases v <;> simp_all [isScalar, isListItem]

theorem isDictLike_eq_false_of_isScalar {v : Val} (h : isScalar v = true) :
    isDictLike v = false := by
  cases v <;> simp_all [isScalar, isDictLike]

/-- C4 (amended): for every scalar element of a list-valued field (with the
field name distinct from the parent relation name and neither equal to
`id`), the engine's recursion on the synthetic mapping
`{field: element, parent: Ref(parent, pid)}` emits exactly one synthetic
row holding the element, the parent `Reference`, and an `id` generated
from the sorted synthetic mapping — i.e. from the `(field, element)` pair
together with the parent `Reference`, not from the pair alone — and it
recurses no further: nothing else is emitted and the synthetic mapping is
left unchanged. -/
theorem c4_amended_scalar_list_element
    (gid : NDict → Int) (fuel : Nat) (key relvar crelvar : String)
    (pid item : Val) (hs : isScalar item = true) (hkr : key ≠ relvar)
    (hki : key ≠ ID_KEY) (hri : relvar ≠ ID_KEY) :
    ndictToRelsItr gid (fuel + 1)
        (mkLdic key item relvar (.vRef relvar pid)) [] (some crelvar) =
      some ⟨[(crelvar,
          sortByKey [(key, item), (relvar, .vRef relvar pid),
            (ID_KEY, .vInt (gid (sortByKey [(key, item), (relvar, .vRef relvar pid)])))])],
        [(key, item), (relvar, .vRef relvar pid)],
        [some (crelvar,
          .vInt (gid (sortByKey [(key, item), (relvar, .vRef relvar pid)])))]⟩ := by
  have hmk : mkLdic key item relvar (.vRef relvar pid) =
      [(key, item), (relvar, .vRef relvar pid)] := by
    simp [mkLdic, hkr]
  rw [hmk]
  have hnd : (([(key, item), (relvar, .vRef relvar pid),
      (ID_KEY, .vInt (gid (sortByKey [(key, item), (relvar, .vRef relvar pid)])))]).map
        Prod.fst).Nodup := by
    simp [hkr, hki, hri]
  have hfk : findV ID_KEY (sortByKey [(key, item), (relvar, .vRef relvar pid),
      (ID_KEY, .vInt (gid (sortByKey [(key, item), (relvar, .vRef relvar pid)])))]) =
      some (.vInt (gid (sortByKey [(key, item), (relvar, .vRef relvar pid)]))) := by
    rw [findV_sortByKey _ hnd]
    simp [findV, hki, hri]
  cases item <;> try (simp [isScalar] at hs)
  all_goals
    simp [ndictToRelsItr, phaseA, phaseB, goElems, rank1DictToRels, tupleId,
      isNewAndUpdateSeen, findV, isListItem, hki, hri, hkr, hfk, rvLabel,
      pidOf, rdicOf, finishStep, crelvarOf, refidOf]

/-- Witness for the amended C4 at the synthetic mapping for field `c`,
element `9`, parent relation `p` with parent id `3`. -/
theorem c4_amended_scalar_list_element_witness :
    isScalar (.vInt 9) = true ∧ ("c" : String) ≠ "p" ∧
    ("c" : String) ≠ ID_KEY ∧ ("p" : String) ≠ ID_KEY ∧
    ndictToRelsItr gidMdl 4 (mkLdic "c" (.vInt 9) "p" (.vRef "p" (.vInt 3)))
        [] (some "c") =
      some ⟨[("c",
          sortByKey [("c", .vInt 9), ("p", .vRef "p" (.vInt 3)),
            (ID_KEY, .vInt (gidMdl (sortByKey [("c", .vInt 9), ("p", .vRef "p" (.vInt 3))])))])],
        [("c", .vInt 9), ("p", .vRef "p" (.vInt 3))],
        [some ("c",
          .vInt (gidMdl (sortByKey [("c", .vInt 9), ("p", .vRef "p" (.vInt 3))])))]⟩ :=
  ⟨by decide, by decide, by decide, by decide,
    c4_amended_scalar_list_element gidMdl 3 "c" "p" "c" (.vInt 3) (.vInt 9)
      (by decide) (by decide) (by decide) (by decide)⟩

/-- Pointwise relation between a field list and its processed form: keys
are preserved, and entries whose value fails the test `t` keep their
value. -/
def entryRel (t : Val → Bool) (a b : String × Val) : Prop :=
  a.1 = b.1 ∧ (t a.2 = false → b.2 = a.2)

theorem forall2_map_fst {t : Val → Bool} {l l' : List (String × Val)}
    (h : List.Forall₂ (entryRel t) l l') :
    l'.map Prod.fst = l.map Prod.fst := by
  induction h with
  | nil => rfl
  | cons hr _ ih => simp [ih, hr.1]

theorem forall2_findV {t : Val → Bool} {l l' : List (String × Val)}
    (h : List.Forall₂ (entryRel t) l l') {k : String} {v : Val}
    (hf : findV k l = some v) (ht : t v = false) :
    findV k l' = some v := by
  induction h with
  | nil => simp [findV] at hf
  | cons hr hrest ih =>
    rename_i a b l1 l2
    obtain ⟨ka, va⟩ := a
    obtain ⟨kb, vb⟩ := b
    obtain ⟨hfst, hval⟩ := hr
    simp only at hfst
    subst hfst
    by_cases hk : ka = k
    · simp only [findV, if_pos hk] at hf ⊢
      injection hf with hf
      subst hf
      exact congrArg some (hval ht)
    · simp only [findV, if_neg hk] at hf ⊢
      exact ih hf

/-- The list-valued pass preserves keys and non-list entries pointwise. -/
theorem phaseA_rel {frec : NDict → Seen → Option String → Option FRes}
    {relvar : String} {pid : Val} :
    ∀ {dic : NDict} {pa : List Emit × NDict},
      phaseA frec relvar pid dic = some pa →
      List.Forall₂ (entryRel isListItem) dic pa.2 := by
  intro dic
  induction dic with
  | nil =>
    intro pa h
    simp only [phaseA, Option.some_inj] at h
    rw [← h]
    exact List.Forall₂.nil
  | cons kv rest ih =>
    intro pa h
    obtain ⟨key, val⟩ := kv
    cases val <;>
      try (simp only [phaseA] at h
           split at h
           · exact absurd h (by simp)
           · rename_i o2 rest2 hrest
             injection h with h
             rw [← h]
             exact List.Forall₂.cons ⟨rfl, fun _ => rfl⟩ (ih hrest))
    rename_i xs
    cases xs with
    | nil =>
      simp only [phaseA] at h
      split at h
      · exact absurd h (by simp)
      · rename_i o2 rest2 hrest
        injection h with h
        rw [← h]
        exact List.Forall₂.cons ⟨rfl, fun _ => rfl⟩ (ih hrest)
    | cons x xs =>
      simp only [phaseA] at h
      split at h
      · exact absurd h (by simp)
      · rename_i o its hgo
        split at h
        · exact absurd h (by simp)
        · rename_i o2 rest2 hrest
          injection h with h
          rw [← h]
          exact List.Forall₂.cons
            ⟨rfl, fun hc => by simp [isListItem] at hc⟩ (ih hrest)

/-- The nested-mapping pass preserves keys and non-dict entries pointwise
in the document view. -/
theorem phaseB_rel {gid : NDict → Int}
    {frec : NDict → Seen → Option String → Option FRes} {relvar : String} :
    ∀ {entries : NDict} {seen : Seen} {b : BRes},
      phaseB gid frec relvar entries seen = some b →
      List.Forall₂ (entryRel isDictLike) entries b.docEntries := by
  intro entries
  induction entries with
  | nil =>
    intro seen b h
    simp only [phaseB, Option.some_inj] at h
    rw [← h]
    exact List.Forall₂.nil
  | cons kv rest ih =>
    intro seen b h
    obtain ⟨key, val⟩ := kv
    cases val <;>
      try (simp only [phaseB] at h
           split at h
           · exact absurd h (by simp)
           · rename_i b2 hrest
             injection h with h
             rw [← h]
             exact List.Forall₂.cons ⟨rfl, fun _ => rfl⟩ (ih hrest))
    rename_i d
    simp only [phaseB] at h
    split at h
    · exact absurd h (by simp)
    · rename_i sub hsub
      split at h
      · exact absurd h (by simp)
      · rename_i b2 hrest
        injection h with h
        rw [← h]
        exact List.Forall₂.cons
          ⟨rfl, fun hc => by simp [isDictLike] at hc⟩ (ih hrest)

theorem finishStep_dic (gid : NDict → Int) (relvar : String)
    (outAB : List Emit) (refEntries docEntries : NDict) (seen : Seen) :
    (finishStep gid relvar outAB refEntries docEntries seen).dic =
      docEntries := by
  simp only [finishStep]
  split <;> rfl

theorem dictSet_of_findV_none {l : NDict} {k : String}
    (h : findV k l = none) (v : Val) : dictSet l k v = l ++ [(k, v)] := by
  induction l with
  | nil => rfl
  | cons x xs ih =>
    obtain ⟨k2, v2⟩ := x
    by_cases hk : k2 = k
    · rw [findV, if_pos hk] at h
      cases h
    · rw [findV, if_neg hk] at h
      simp [dictSet, hk, ih h]

theorem refidOf_of_no_id {gid : NDict → Int} {d : NDict}
    (h : findV ID_KEY d = none) :
    refidOf gid d =
      (.vInt (gid (sortByKey d)),
       d ++ [(ID_KEY, .vInt (gid (sortByKey d)))]) := by
  unfold refidOf
  rw [h]
  cases d.all (fun kv => !isRefVal kv.2) <;>
    simp [dictSet_of_findV_none h]

theorem refidOf_reuse {gid : NDict → Int} {d : NDict} {i : Val}
    (h : findV ID_KEY d = some i)
    (hnr : d.all (fun kv => !isRefVal kv.2) = true) :
    refidOf gid d = (i, d) := by
  unfold refidOf
  rw [h, hnr]

theorem ndictToRelsItr_dic_keys {gid : NDict → Int} {fuel : Nat}
    {dic : NDict} {seen : Seen} {rv : Option String} {r : FRes}
    (h : ndictToRelsItr gid fuel dic seen rv = some r) :
    r.dic.map Prod.fst = dic.map Prod.fst := by
  cases fuel with
  | zero => exact absurd h (by simp [ndictToRelsItr])
  | succ fuel =>
    rw [ndictToRelsItr] at h
    split at h
    · injection h with h
      rw [← h]
    · split at h
      · exact absurd h (by simp)
      · rename_i pa hpa
        split at h
        · exact absurd h (by simp)
        · rename_i b hb
          injection h with h
          rw [← h, finishStep_dic]
          rw [forall2_map_fst (phaseB_rel hb), forall2_map_fst (phaseA_rel hpa)]

theorem ndictToRelsItr_preserves_plain_field {gid : NDict → Int}
    {fuel : Nat} {dic : NDict} {seen : Seen} {rv : Option String} {r : FRes}
    {k : String} {v : Val}
    (h : ndictToRelsItr gid fuel dic seen rv = some r)
    (hf : findV k dic = some v) (hl : isListItem v = false)
    (hd : isDictLike v = false) :
    findV k r.dic = some v := by
  cases fuel with
  | zero => exact absurd h (by simp [ndictToRelsItr])
  | succ fuel =>
    rw [ndictToRelsItr] at h
    split at h
    · injection h with h
      rw [← h]
      exact hf
    · split at h
      · exact absurd h (by simp)
      · rename_i pa hpa
        split at h
        · exact absurd h (by simp)
        · rename_i b hb
          injection h with h
          rw [← h, finishStep_dic]
          exact forall2_findV (phaseB_rel hb)
            (forall2_findV (phaseA_rel hpa) hf hl) hd

/-- The nested-mapping pass on a dict-valued field without `id`: the
generated id is appended to the nested mapping before the recursive
traversal, whose resulting document becomes the field's value in the
document view. -/
theorem phaseB_dict_field {gid : NDict → Int}
    {frec : NDict → Seen → Option String → Option FRes} {relvar : String} :
    ∀ {entries : NDict} {seen : Seen} {b : BRes} {key : String} {d : NDict},
      phaseB gid frec relvar entries seen = some b →
      findV key entries = some (.vDict d) →
      findV ID_KEY d = none →
      ∃ sub : FRes, ∃ seenX : Seen,
        frec (d ++ [(ID_KEY, .vInt (gid (sortByKey d)))]) seenX
            (some (crelvarOf relvar key)) = some sub ∧
        findV key b.docEntries = some (.vDict sub.dic) := by
  intro entries
  induction entries with
  | nil =>
    intro seen b key d hb hf hid
    simp [findV] at hf
  | cons kv rest ih =>
    intro seen b key d hb hf hid
    obtain ⟨k2, val⟩ := kv
    by_cases hk : k2 = key
    · subst hk
      rw [findV, if_pos rfl] at hf
      injection hf with hf
      subst hf
      simp only [phaseB] at hb
      rw [refidOf_of_no_id hid] at hb
      split at hb
      · exact absurd hb (by simp)
      · rename_i sub hsub
        split at hb
        · exact absurd hb (by simp)
        · rename_i b2 hrest
          injection hb with hb
          refine ⟨sub, seen, hsub, ?_⟩
          rw [← hb]
          simp [findV]
    · rw [findV, if_neg hk] at hf
      cases val <;>
        try (simp only [phaseB] at hb
             split at hb
             · exact absurd hb (by simp)
             · rename_i b2 hrest
               injection hb with hb
               obtain ⟨sub, sx, h1, h2⟩ := ih hrest hf hid
               exact ⟨sub, sx, h1, by rw [← hb]; simpa [findV, hk] using h2⟩)
      rename_i d2
      simp only [phaseB] at hb
      split at hb
      · exact absurd hb (by simp)
      · rename_i sub2 hsub2
        split at hb
        · exact absurd hb (by simp)
        · rename_i b2 hrest
          injection hb with hb
          obtain ⟨sub, sx, h1, h2⟩ := ih hrest hf hid
          exact ⟨sub, sx, h1, by rw [← hb]; simpa [findV, hk] using h2⟩

/-- The nested-mapping pass on a dict-valued field that has an `id` and no
`Ref` values: the mapping is passed to the recursive traversal unchanged. -/
theorem phaseB_dict_field_reuse {gid : NDict → Int}
    {frec : NDict → Seen → Option String → Option FRes} {relvar : String} :
    ∀ {entries : NDict} {seen : Seen} {b : BRes} {key : String} {d : NDict}
      {i : Val},
      phaseB gid frec relvar entries seen = some b →
      findV key entries = some (.vDict d) →
      findV ID_KEY d = some i →
      d.all (fun kv => !isRefVal kv.2) = true →
      ∃ sub : FRes, ∃ seenX : Seen,
        frec d seenX (some (crelvarOf relvar key)) = some sub ∧
        findV key b.docEntries = some (.vDict sub.dic) := by
  intro entries
  induction entries with
  | nil =>
    intro seen b key d i hb hf hid hnr
    simp [findV] at hf
  | cons kv rest ih =>
    intro seen b key d i hb hf hid hnr
    obtain ⟨k2, val⟩ := kv
    by_cases hk : k2 = key
    · subst hk
      rw [findV, if_pos rfl] at hf
      injection hf with hf
      subst hf
      simp only [phaseB] at hb
      rw [refidOf_reuse hid hnr] at hb
      split at hb
      · exact absurd hb (by simp)
      · rename_i sub hsub
        split at hb
        · exact absurd hb (by simp)
        · rename_i b2 hrest
          injection hb with hb
          refine ⟨sub, seen, hsub, ?_⟩
          rw [← hb]
          simp [findV]
    · rw [findV, if_neg hk] at hf
      cases val <;>
        try (simp only [phaseB] at hb
             split at hb
             · exact absurd hb (by simp)
             · rename_i b2 hrest
               injection hb with hb
               obtain ⟨sub, sx, h1, h2⟩ := ih hrest hf hid hnr
               exact ⟨sub, sx, h1, by rw [← hb]; simpa [findV, hk] using h2⟩)
      rename_i d2
      simp only [phaseB] at hb
      split at hb
      · exact absurd hb (by simp)
      · rename_i sub2 hsub2
        split at hb
        · exact absurd hb (by simp)
        · rename_i b2 hrest
          injection hb with hb
          obtain ⟨sub, sx, h1, h2⟩ := ih hrest hf hid hnr
          exact ⟨sub, sx, h1, by rw [← hb]; simpa [findV, hk] using h2⟩

/-- C5 (amended): the engine's id write-back reaches nested mappings but
never the top-level mapping.  For every successful traversal: (a) the
returned document has exactly the keys of the input — in particular a
top-level mapping lacking `id` still lacks it afterwards, since the
generated root id is written only into the internal copy `rdic`; (b) a
scalar top-level `id` is left unchanged; (c) every dict-valued field whose
mapping lacks `id` comes back with the id generated from its sorted fields
written into it; (d) every dict-valued field whose mapping has an `id`
(and no `Ref` values) keeps that id unchanged. -/
theorem c5_amended_id_write_back
    (gid : NDict → Int) (fuel : Nat) (dic : NDict) (seen : Seen)
    (rv : Option String) (r : FRes)
    (h : ndictToRelsItr gid fuel dic seen rv = some r) :
    r.dic.map Prod.fst = dic.map Prod.fst ∧
    (∀ i, findV ID_KEY dic = some i → isListItem i = false →
      isDictLike i = false → findV ID_KEY r.dic = some i) ∧
    (∀ key d, findV key dic = some (.vDict d) → findV ID_KEY d = none →
      ∃ d' : NDict, findV key r.dic = some (.vDict d') ∧
        findV ID_KEY d' = some (.vInt (gid (sortByKey d)))) ∧
    (∀ key d i, findV key dic = some (.vDict d) → findV ID_KEY d = some i →
      d.all (fun kv => !isRefVal kv.2) = true → isListItem i = false →
      isDictLike i = false →
      ∃ d' : NDict, findV key r.dic = some (.vDict d') ∧
        findV ID_KEY d' = some i) := by
  refine ⟨ndictToRelsItr_dic_keys h, ?_, ?_, ?_⟩
  · intro i hf hl hd
    exact ndictToRelsItr_preserves_plain_field h hf hl hd
  · intro key d hf hid
    cases fuel with
    | zero => exact absurd h (by simp [ndictToRelsItr])
    | succ fuel =>
      rw [ndictToRelsItr] at h
      split at h
      · rename_i hemp
        have : dic = [] := by simpa using hemp
        subst this
        simp [findV] at hf
      · split at h
        · exact absurd h (by simp)
        · rename_i pa hpa
          split at h
          · exact absurd h (by simp)
          · rename_i b hb
            injection h with h
            have hfa : findV key pa.2 = some (.vDict d) :=
              forall2_findV (phaseA_rel hpa) hf rfl
            obtain ⟨sub, sx, hsub, hdoc⟩ := phaseB_dict_field hb hfa hid
            have hidd : findV ID_KEY
                (d ++ [(ID_KEY, .vInt (gid (sortByKey d)))]) =
                some (.vInt (gid (sortByKey d))) := by
              rw [findV_append_right hid]
              simp [findV]
            refine ⟨sub.dic, ?_, ?_⟩
            · rw [← h, finishStep_dic]
              exact hdoc
            · exact ndictToRelsItr_preserves_plain_field hsub hidd rfl rfl
  · intro key d i hf hid hnr hl hdk
    cases fuel with
    | zero => exact absurd h (by simp [ndictToRelsItr])
    | succ fuel =>
      rw [ndictToRelsItr] at h
      split at h
      · rename_i hemp
        have : dic = [] := by simpa using hemp
        subst this
        simp [findV] at hf
      · split at h
        · exact absurd h (by simp)
        · rename_i pa hpa
          split at h
          · exact absurd h (by simp)
          · rename_i b hb
            injection h with h
            have hfa : findV key pa.2 = some (.vDict d) :=
              forall2_findV (phaseA_rel hpa) hf rfl
            obtain ⟨sub, sx, hsub, hdoc⟩ := phaseB_dict_field_reuse hb hfa hid hnr
            refine ⟨sub.dic, ?_, ?_⟩
            · rw [← h, finishStep_dic]
              exact hdoc
            · exact ndictToRelsItr_preserves_plain_field hsub hid hl hdk

def c5indoc : NDict := [("a", .vInt 1), ("c", .vDict [("x", .vInt 5)])]

/-- The traversal result on `c5indoc` with the modelled digest. -/
def c5res : FRes :=
  ⟨[("c", [("id", .vInt 42976850), ("x", .vInt 5)]),
    ("a_c", [("a", .vInt 1), ("c", .vRef "c" (.vInt 42976850)),
             ("id", .vInt 909392651)])],
   [("a", .vInt 1), ("c", .vDict [("x", .vInt 5), ("id", .vInt 42976850)])],
   [some ("a_c", .vInt 909392651), some ("c", .vInt 42976850)]⟩

/-- Witness for the amended C5 at the document `{a: 1, c: {x: 5}}`: the
traversal succeeds, the root keeps exactly its keys (so no root `id`
appears) and the nested mapping `c` is tagged with its generated id. -/
theorem c5_amended_id_write_back_witness :
    ndictToRelsItr gidMdl 4 c5indoc [] none = some c5res ∧
    (c5res.dic.map Prod.fst = c5indoc.map Prod.fst ∧
     (∀ i, findV ID_KEY c5indoc = some i → isListItem i = false →
       isDictLike i = false → findV ID_KEY c5res.dic = some i) ∧
     (∀ key d, findV key c5indoc = some (.vDict d) → findV ID_KEY d = none →
       ∃ d' : NDict, findV key c5res.dic = some (.vDict d') ∧
         findV ID_KEY d' = some (.vInt (gidMdl (sortByKey d)))) ∧
     (∀ key d i, findV key c5indoc = some (.vDict d) → findV ID_KEY d = some i →
       d.all (fun kv => !isRefVal kv.2) = true → isListItem i = false →
       isDictLike i = false →
       ∃ d' : NDict, findV key c5res.dic = some (.vDict d') ∧
         findV ID_KEY d' = some i)) :=
  ⟨by decide,
    c5_amended_id_write_back gidMdl 4 c5indoc [] none c5res (by decide)⟩

mutual

/-- No sequence value anywhere in the value: under this condition every
recursive flattening step threads the single `seen` set (list elements are
the only place a fresh `seen` set is introduced). -/
def noListsV : Val → Bool
  | .vList _ => false
  | .vDict d => noListsD d
  | .vRef _ i => noListsV i
  | _ => true
  termination_by structural v => v

def noListsD : List (String × Val) → Bool
  | [] => true
  | (_, v) :: rest => noListsV v && noListsD rest
  termination_by structural l => l

end

/-- The `(relvar, id)` keys of the emitted tuples, in emission order. -/
def outTids (out : List Emit) : List (Option (String × Val)) :=
  out.map (fun e => tupleId e.1 e.2)

theorem noListsD_findV {d : NDict} {k : String} {v : Val}
    (hnl : noListsD d = true) (hf : findV k d = some v) :
    noListsV v = true := by
  induction d with
  | nil => simp [findV] at hf
  | cons x xs ih =>
    obtain ⟨k2, v2⟩ := x
    rw [noListsD, Bool.and_eq_true] at hnl
    by_cases hk : k2 = k
    · rw [findV, if_pos hk] at hf
      injection hf with hf
      rw [← hf]
      exact hnl.1
    · rw [findV, if_neg hk] at hf
      exact ih hnl.2 hf

theorem noListsD_dictSet {d : NDict} {k : String} {v : Val}
    (hnl : noListsD d = true) (hv : noListsV v = true) :
    noListsD (dictSet d k v) = true := by
  induction d with
  | nil => simp [dictSet, noListsD, noListsV, hv]
  | cons x xs ih =>
    obtain ⟨k2, v2⟩ := x
    rw [noListsD, Bool.and_eq_true] at hnl
    by_cases hk : k2 = k
    · simp [dictSet, hk, noListsD, hv, hnl.2]
    · simp [dictSet, hk, noListsD, hnl.1, ih hnl.2]

theorem noListsD_refidOf {gid : NDict → Int} {d : NDict}
    (hnl : noListsD d = true) : noListsD (refidOf gid d).2 = true := by
  unfold refidOf
  split
  · exact hnl
  · exact noListsD_dictSet hnl rfl

/-- With no list values around, the list-valued pass does nothing. -/
theorem phaseA_noLists {frec : NDict → Seen → Option String → Option FRes}
    {relvar : String} {pid : Val} :
    ∀ {dic : NDict}, noListsD dic = true →
      phaseA frec relvar pid dic = some ([], dic) := by
  intro dic
  induction dic with
  | nil => intro; rfl
  | cons kv rest ih =>
    intro hnl
    obtain ⟨key, val⟩ := kv
    rw [noListsD, Bool.and_eq_true] at hnl
    cases val with
    | vList xs => exact absurd hnl.1 (by simp [noListsV])
    | vNull => simp [phaseA, ih hnl.2]
    | vBool b => simp [phaseA, ih hnl.2]
    | vInt n => simp [phaseA, ih hnl.2]
    | vFloat f => simp [phaseA, ih hnl.2]
    | vStr s => simp [phaseA, ih hnl.2]
    | vRef rr ri => simp [phaseA, ih hnl.2]
    | vDict ds => simp [phaseA, ih hnl.2]

theorem finishStep_eq (gid : NDict → Int) (relvar : String)
    (outAB : List Emit) (refE docE : NDict) (s : Seen) :
    finishStep gid relvar outAB refE docE s =
      (if tupleId
            (rank1DictToRels gid (refE.filter (fun kv => !isListItem kv.2))
              (some relvar)).1
            (rank1DictToRels gid (refE.filter (fun kv => !isListItem kv.2))
              (some relvar)).2 ∈ s
       then ⟨outAB, docE, s⟩
       else
         ⟨outAB ++ [rank1DictToRels gid
             (refE.filter (fun kv => !isListItem kv.2)) (some relvar)],
          docE,
          tupleId
              (rank1DictToRels gid (refE.filter (fun kv => !isListItem kv.2))
                (some relvar)).1
              (rank1DictToRels gid (refE.filter (fun kv => !isListItem kv.2))
                (some relvar)).2 :: s⟩) := by
  by_cases hmem : tupleId
      (rank1DictToRels gid (refE.filter (fun kv => !isListItem kv.2))
        (some relvar)).1
      (rank1DictToRels gid (refE.filter (fun kv => !isListItem kv.2))
        (some relvar)).2 ∈ s <;>
    simp [finishStep, isNewAndUpdateSeen, hmem]

/-- The guarded-emission invariant of a traversal of a document with no
list values (a single threaded `seen` set): the `seen` set only grows, the
emitted `(relvar, id)` keys are pairwise distinct, and each emitted key is
recorded in the final `seen` set and was absent from the initial one. -/
theorem ndictToRelsItr_noLists_guard (gid : NDict → Int) :
    ∀ fuel : Nat, ∀ {dic : NDict} {seen : Seen} {rv : Option String}
      {r : FRes},
      noListsD dic = true →
      ndictToRelsItr gid fuel dic seen rv = some r →
      (∀ x ∈ seen, x ∈ r.seen) ∧ (outTids r.out).Nodup ∧
      (∀ t ∈ outTids r.out, t ∈ r.seen ∧ t ∉ seen) := by
  intro fuel
  induction fuel with
  | zero =>
    intro dic seen rv r hnl h
    exact absurd h (by simp [ndictToRelsItr])
  | succ fuel ih =>
    have hB : ∀ (relvar : String) (entries : NDict) (seen : Seen) (b : BRes),
        noListsD entries = true →
        phaseB gid (ndictToRelsItr gid fuel) relvar entries seen = some b →
        (∀ x ∈ seen, x ∈ b.seen) ∧ (outTids b.out).Nodup ∧
        (∀ t ∈ outTids b.out, t ∈ b.seen ∧ t ∉ seen) := by
      intro relvar entries
      induction entries with
      | nil =>
        intro seen b hnl hb
        simp only [phaseB, Option.some_inj] at hb
        rw [← hb]
        exact ⟨fun x hx => hx, List.Pairwise.nil, by simp [outTids]⟩
      | cons kv rest ihe =>
        intro seen b hnl hb
        obtain ⟨key, val⟩ := kv
        rw [noListsD, Bool.and_eq_true] at hnl
        cases val
        case vDict d =>
          simp only [phaseB] at hb
          split at hb
          · exact absurd hb (by simp)
          · rename_i sub hsub
            split at hb
            · exact absurd hb (by simp)
            · rename_i b2 hrest
              injection hb with hb
              have hnld : noListsD (refidOf gid d).2 = true :=
                noListsD_refidOf (by simpa [noListsV] using hnl.1)
              obtain ⟨hs1, hn1, ht1⟩ := ih hnld hsub
              obtain ⟨hs2, hn2, ht2⟩ := ihe _ _ hnl.2 hrest
              rw [← hb]
              refine ⟨fun x hx => hs2 _ (hs1 _ hx), ?_, ?_⟩
              · show ((sub.out ++ b2.out).map _).Nodup
                rw [List.map_append]
                exact hn1.append hn2 (fun t htin htin2 =>
                  (ht2 t htin2).2 ((ht1 t htin).1))
              · intro t htmem
                show t ∈ b2.seen ∧ t ∉ seen
                rw [show outTids (sub.out ++ b2.out) =
                    outTids sub.out ++ outTids b2.out by
                  simp [outTids]] at htmem
                rcases List.mem_append.mp htmem with hcase | hcase
                · exact ⟨hs2 _ (ht1 t hcase).1, (ht1 t hcase).2⟩
                · exact ⟨(ht2 t hcase).1, fun hin =>
                    (ht2 t hcase).2 (hs1 _ hin)⟩
        all_goals
          simp only [phaseB] at hb
          split at hb
          · exact absurd hb (by simp)
          · rename_i b2 hrest
            injection hb with hb
            obtain ⟨hs2, hn2, ht2⟩ := ihe _ _ hnl.2 hrest
            rw [← hb]
            exact ⟨hs2, hn2, ht2⟩
    intro dic seen rv r hnl h
    rw [ndictToRelsItr] at h
    split at h
    · injection h with h
      rw [← h]
      exact ⟨fun x hx => hx, by simp [outTids], by simp [outTids]⟩
    · split at h
      · exact absurd h (by simp)
      · rename_i pa hpa
        rw [phaseA_noLists hnl] at hpa
        injection hpa with hpa
        subst hpa
        split at h
        · exact absurd h (by simp)
        · rename_i b hb
          injection h with h
          obtain ⟨hs, hn, ht⟩ := hB (rvLabel rv dic) dic seen b hnl hb
          rw [← h, finishStep_eq]
          split
          · rename_i hmem
            refine ⟨hs, ?_, ?_⟩
            · show (outTids ([] ++ b.out)).Nodup
              simpa using hn
            · intro t htmem
              simp only [List.nil_append] at htmem
              exact ht t htmem
          · rename_i hmem
            refine ⟨fun x hx => List.mem_cons_of_mem _ (hs x hx), ?_, ?_⟩
            · show (outTids (([] ++ b.out) ++ [_])).Nodup
              rw [show outTids (([] ++ b.out) ++
                  [rank1DictToRels gid
                    (b.refEntries.filter (fun kv => !isListItem kv.2))
                    (some (rvLabel rv dic))]) =
                  outTids b.out ++ [tupleId
                    (rank1DictToRels gid
                      (b.refEntries.filter (fun kv => !isListItem kv.2))
                      (some (rvLabel rv dic))).1
                    (rank1DictToRels gid
                      (b.refEntries.filter (fun kv => !isListItem kv.2))
                      (some (rvLabel rv dic))).2] by simp [outTids, tupleId]]
              refine hn.append (by simp) ?_
              intro t htin htin2
              rw [List.mem_singleton] at htin2
              subst htin2
              exact hmem ((ht _ htin).1)
            · intro t htmem
              rw [show outTids (([] ++ b.out) ++
                  [rank1DictToRels gid
                    (b.refEntries.filter (fun kv => !isListItem kv.2))
                    (some (rvLabel rv dic))]) =
                  outTids b.out ++ [tupleId
                    (rank1DictToRels gid
                      (b.refEntries.filter (fun kv => !isListItem kv.2))
                      (some (rvLabel rv dic))).1
                    (rank1DictToRels gid
                      (b.refEntries.filter (fun kv => !isListItem kv.2))
                      (some (rvLabel rv dic))).2] by simp [outTids, tupleId]]
                at htmem
              rcases List.mem_append.mp htmem with hcase | hcase
              · exact ⟨List.mem_cons_of_mem _ (ht t hcase).1, (ht t hcase).2⟩
              · rw [List.mem_singleton] at hcase
                subst hcase
                exact ⟨List.mem_cons_self _ _, fun hin => hmem (hs _ hin)⟩

/-- C3 (amended): when every recursive step threads the single `seen` set
— in particular for every document with no sequence values, since fresh
`seen` sets are introduced only for list elements — no `(relation_name,
id)` pair is emitted twice within one flattening call: the emitted keys
are pairwise distinct, so no two emitted rows of one relation share an
`id` (with equal or different content).  List-element recursions run with
fresh `seen` sets, and duplicate caller-supplied ids across list elements
do produce distinct rows sharing `(relation_name, id)`
(see the counterexample). -/
theorem c3_amended_no_dup_ids_without_lists
    (gid : NDict → Int) (fuel : Nat) (dic : NDict) (name : Option String)
    (r : FRes) (hnl : noListsD dic = true)
    (h : dictToRelsItr gid fuel dic name = some r) :
    (outTids r.out).Nodup ∧
    r.out.Pairwise (fun e1 e2 =>
      e1.1 ≠ e2.1 ∨ findV ID_KEY e1.2 ≠ findV ID_KEY e2.2) := by
  obtain ⟨-, hn, -⟩ := ndictToRelsItr_noLists_guard gid fuel hnl h
  refine ⟨hn, ?_⟩
  have hp := hn
  rw [outTids, List.Nodup, List.pairwise_map] at hp
  refine hp.imp ?_
  intro e1 e2 hne
  by_contra hcon
  push_neg at hcon
  apply hne
  rw [tupleId, tupleId, hcon.2, hcon.1]

/-- Witness for the amended C3 at `{x: {y: 2}}` (a document without
sequence values). -/
theorem c3_amended_no_dup_ids_without_lists_witness :
    noListsD [("x", .vDict [("y", .vInt 2)])] = true ∧
    dictToRelsItr gidMdl 3 [("x", .vDict [("y", .vInt 2)])] none =
      some ⟨[("x", [("id", .vInt 337476378), ("y", .vInt 2)]),
             ("relvar_x", [("id", .vInt 334470458),
                           ("x", .vRef "x" (.vInt 337476378))])],
            [("x", .vDict [("y", .vInt 2), ("id", .vInt 337476378)])],
            [some ("relvar_x", .vInt 334470458),
             some ("x", .vInt 337476378)]⟩ ∧
    ((outTids ([("x", [("id", .vInt 337476378), ("y", .vInt 2)]),
       ("relvar_x", [("id", .vInt 334470458),
                     ("x", .vRef "x" (.vInt 337476378))])] :
        List Emit)).Nodup ∧
     ([("x", [("id", .vInt 337476378), ("y", .vInt 2)]),
       ("relvar_x", [("id", .vInt 334470458),
                     ("x", .vRef "x" (.vInt 337476378))])] :
        List Emit).Pairwise (fun e1 e2 =>
       e1.1 ≠ e2.1 ∨ findV ID_KEY e1.2 ≠ findV ID_KEY e2.2)) :=
  ⟨by decide, by decide,
    c3_amended_no_dup_ids_without_lists gidMdl 3
      [("x", .vDict [("y", .vInt 2)])] none
      ⟨[("x", [("id", .vInt 337476378), ("y", .vInt 2)]),
        ("relvar_x", [("id", .vInt 334470458),
                      ("x", .vRef "x" (.vInt 337476378))])],
       [("x", .vDict [("y", .vInt 2), ("id", .vInt 337476378)])],
       [some ("relvar_x", .vInt 334470458), some ("x", .vInt 337476378)]⟩
      (by decide) (by decide)⟩

/-- Whether a statement is a CREATE TABLE. -/
def isCreateStmt : ExecStmt → Bool
  | .create _ _ _ _ => true
  | _ => false

theorem createTableAndInsertData_flag {relvar : String} {data : List NDict}
    {fk : Bool} :
    ∀ s ∈ createTableAndInsertData relvar data fk,
      isCreateStmt s = true → createWithFkFlag s = fk := by
  intro s hs hc
  unfold createTableAndInsertData at hs
  rcases List.mem_cons.mp hs with hcase | hs2
  · rw [hcase]
    rfl
  · rcases List.mem_cons.mp hs2 with hcase | hs3
    · rw [hcase] at hc
      cases hc
    · rcases List.mem_append.mp hs3 with hcase | hcase
      · obtain ⟨p, -, hp⟩ := List.mem_map.mp hcase
        rw [← hp] at hc
        cases hc
      · rw [List.mem_singleton.mp hcase] at hc
        cases hc

/-- C6 (amended): the dump trace splits into a prefix whose CREATE TABLE
statements are all for relations without `Ref`-valued fields (built
without the `foreign_keys` form, hence without FOREIGN KEY clauses) and a
suffix whose CREATE TABLE statements are all for `Ref`-carrying relations:
every independent relation is created before any dependent relation.
Ordering among the dependent relations themselves is by relation name and
may violate reference order (see the counterexample). -/
theorem c6_amended_indep_before_dep
    (gid : NDict → Int) (fuel : Nat) (cnf : NDict) (conn : ConnState)
    (options : ConnOptions) (c : ConnState) (plan : List ExecStmt)
    (h : dump gid fuel cnf conn options = some (c, plan)) :
    ∃ pre post, plan = pre ++ post ∧
      (∀ s ∈ pre, isCreateStmt s = true → createWithFkFlag s = false) ∧
      (∀ s ∈ post, isCreateStmt s = true → createWithFkFlag s = true) := by
  unfold dump at h
  split at h
  · exact absurd h (by simp)
  · rename_i rels hrels
    injection h with h
    injection h with hc hplan
    refine ⟨(rels.filter (fun r => !relHasRef r.2)).flatMap
        (fun r => createTableAndInsertData r.1 r.2 false),
      (rels.filter (fun r => relHasRef r.2)).flatMap
        (fun r => createTableAndInsertData r.1 r.2 true),
      hplan.symm, ?_, ?_⟩
    · intro s hs hcr
      obtain ⟨r, -, hmem⟩ := List.mem_flatMap.mp hs
      exact createTableAndInsertData_flag s hmem hcr
    · intro s hs hcr
      obtain ⟨r, -, hmem⟩ := List.mem_flatMap.mp hs
      exact createTableAndInsertData_flag s hmem hcr

/-- Witness for the amended C6 at the configuration `{a: 1}`. -/
theorem c6_amended_indep_before_dep_witness :
    dump gidMdl 3 [("a", .vInt 1)] {} {} =
      some ({},
        [ExecStmt.create "relvar_a" [("a", "INTEGER"), ("id", "INTEGER")] [] false,
         ExecStmt.commit,
         ExecStmt.dml "INSERT OR REPLACE INTO 'relvar_a' VALUES (?, ?)"
           [.vInt 1, .vInt 269478192],
         ExecStmt.commit]) ∧
    (∃ pre post,
      ([ExecStmt.create "relvar_a" [("a", "INTEGER"), ("id", "INTEGER")] [] false,
        ExecStmt.commit,
        ExecStmt.dml "INSERT OR REPLACE INTO 'relvar_a' VALUES (?, ?)"
          [.vInt 1, .vInt 269478192],
        ExecStmt.commit] : List ExecStmt) = pre ++ post ∧
      (∀ s ∈ pre, isCreateStmt s = true → createWithFkFlag s = false) ∧
      (∀ s ∈ post, isCreateStmt s = true → createWithFkFlag s = true)) :=
  ⟨by decide,
    c6_amended_indep_before_dep gidMdl 3 [("a", .vInt 1)] {} {} {}
      [ExecStmt.create "relvar_a" [("a", "INTEGER"), ("id", "INTEGER")] [] false,
       ExecStmt.commit,
       ExecStmt.dml "INSERT OR REPLACE INTO 'relvar_a' VALUES (?, ?)"
         [.vInt 1, .vInt 269478192],
       ExecStmt.commit]
      (by decide)⟩
